import Mathlib

/-!
Verification of the gst-transcoder command-line front end (pitivi/gst-transcoder).

The development shallowly embeds the pure content of the C sources:
  * `tools/gst-transcoder.c`: `get_profiles_of_type`, `set_video_size`,
    `set_audio_rate`, `position_updated_cb`, `_warning_cb`;
  * `tools/utils.c` (provided unnamed): `get_file_extension`,
    `get_usable_profiles`.

GStreamer encoding profiles form a closed class hierarchy
(`GstEncodingContainerProfile`, `GstEncodingVideoProfile`,
`GstEncodingAudioProfile`), modelled as a recursive variant.  Restriction
caps are modelled as a media-type name plus an association list of integer
fields, matching the only caps operations the tool performs
(`gst_caps_new_empty_simple`, `gst_caps_copy`, `gst_caps_set_simple`,
`gst_encoding_profile_get_restriction` / `set_restriction`).  The trial
`encodebin` expansion performed by `get_usable_profiles` is an external
GStreamer capability and enters as an explicit function parameter giving
the children of the trial bin for a profile.
-/

namespace GstTranscoder

/-- Concrete GObject class of an encoding profile, as tested by
`G_OBJECT_TYPE (x) == GST_TYPE_ENCODING_*_PROFILE` and the
`GST_IS_ENCODING_*_PROFILE` macros. -/
inductive GType where
  | containerProfile
  | videoProfile
  | audioProfile
deriving DecidableEq, Repr

/-- Elementary stream kinds distinguished by the tool (the spec's
`profiles_of_kind` query is invoked for video and audio). -/
inductive StreamKind where
  | video
  | audio
deriving DecidableEq, Repr

/-- The profile class corresponding to a stream kind: the GType constant the
tool passes to `get_profiles_of_type` for that kind. -/
def typeOfKind : StreamKind → GType
  | .video => .videoProfile
  | .audio => .audioProfile

/-- Restriction caps: a media-type name (for example `video/x-raw`) and the
integer fields set on it.  This covers every caps operation the tool uses. -/
structure Caps where
  name : String
  fields : List (String × Int)
deriving DecidableEq, Repr

/-- An encoding profile: a video leaf, an audio leaf, or a container owning an
ordered list of child profiles.  Every profile carries an optional restriction
and a presence count, as in `GstEncodingProfile`. -/
inductive EncodingProfile where
  | video (restriction : Option Caps) (presence : Nat)
  | audio (restriction : Option Caps) (presence : Nat)
  | container (restriction : Option Caps) (presence : Nat)
      (children : List EncodingProfile)

/-- `G_OBJECT_TYPE` of a profile object. -/
def gObjectType : EncodingProfile → GType
  | .video _ _ => .videoProfile
  | .audio _ _ => .audioProfile
  | .container _ _ _ => .containerProfile

/-- The stream kind described by a profile; a container profile describes no
single elementary stream. -/
def streamKind : EncodingProfile → Option StreamKind
  | .video _ _ => some .video
  | .audio _ _ => some .audio
  | .container _ _ _ => none

/-- Presence counter of a profile (`gst_encoding_profile_get_presence`). -/
def presenceOf : EncodingProfile → Nat
  | .video _ n => n
  | .audio _ n => n
  | .container _ n _ => n

/-- Direct children of a profile
(`gst_encoding_container_profile_get_profiles`); leaves have none. -/
def childrenOf : EncodingProfile → List EncodingProfile
  | .video _ _ => []
  | .audio _ _ => []
  | .container _ _ cs => cs

/-- Restriction caps of a profile (`gst_encoding_profile_get_restriction`). -/
def restrictionOf : EncodingProfile → Option Caps
  | .video r _ => r
  | .audio r _ => r
  | .container r _ _ => r

/-- `get_profiles_of_type` from `tools/gst-transcoder.c`: on a container
profile it walks the direct children, prepending each child whose
`G_OBJECT_TYPE` equals the requested type; on a non-container profile it
returns the profile itself when it is a video profile and the empty list
otherwise. -/
def get_profiles_of_type (profile : EncodingProfile) (t : GType) :
    List EncodingProfile :=
  match profile with
  | .container _ _ children =>
      children.foldl (fun acc c => if gObjectType c = t then c :: acc else acc) []
  | p => if gObjectType p = .videoProfile then [p] else []

/-- Recognizer for video leaf profiles (`GST_IS_ENCODING_VIDEO_PROFILE`). -/
def isVideoLeafB : EncodingProfile → Bool
  | .video _ _ => true
  | _ => false

theorem foldl_prepend_filter {α : Type} (P : α → Prop) [DecidablePred P] :
    ∀ (l : List α) (acc : List α),
      l.foldl (fun a x => if P x then x :: a else a) acc
        = (l.filter (fun x => decide (P x))).reverse ++ acc := by
  intro l
  induction l with
  | nil => intro acc; simp
  | cons x l ih =>
      intro acc
      by_cases hx : P x
      · simp [List.foldl_cons, hx, ih, List.filter_cons]
      · simp [List.foldl_cons, hx, ih, List.filter_cons]

theorem get_profiles_of_type_container (r : Option Caps) (n : Nat)
    (children : List EncodingProfile) (t : GType) :
    get_profiles_of_type (.container r n children) t
      = (children.filter (fun c => decide (gObjectType c = t))).reverse := by
  have h : get_profiles_of_type (.container r n children) t
      = children.foldl (fun acc c => if gObjectType c = t then c :: acc else acc)
          [] := rfl
  rw [h, foldl_prepend_filter (fun c => gObjectType c = t) children []]
  simp

theorem gObjectType_eq_typeOfKind (p : EncodingProfile) (k : StreamKind) :
    gObjectType p = typeOfKind k ↔ streamKind p = some k := by
  cases p <;> cases k <;> simp [gObjectType, typeOfKind, streamKind]

/-- C1: for a container profile `c` and a stream kind `k`, the
`profiles_of_kind` query (`get_profiles_of_type` at the profile class of `k`)
selects a direct child of `c` exactly when that child's stream kind is `k`.
In the GstPbutils class set, matching the child's concrete class against the
class of kind `k` coincides with matching its stream kind. -/
theorem claim_C1_profiles_of_kind_selects_by_kind
    (r : Option Caps) (n : Nat) (children : List EncodingProfile)
    (k : StreamKind) (p : EncodingProfile) :
    p ∈ get_profiles_of_type (.container r n children) (typeOfKind k)
      ↔ p ∈ children ∧ streamKind p = some k := by
  rw [get_profiles_of_type_container]
  simp [List.mem_filter, gObjectType_eq_typeOfKind]

/-- C2 counterexample: a container with video children `v1, v2` (in that
order) yields `[v2, v1]` from `get_profiles_of_type` — the children are
prepended, so the original relative order is reversed, not preserved. -/
theorem claim_C2_order_counterexample :
    get_profiles_of_type
        (.container none 1
          [EncodingProfile.video none 1, EncodingProfile.video none 2])
        GType.videoProfile
      = [EncodingProfile.video none 2, EncodingProfile.video none 1]
    ∧ (get_profiles_of_type
        (.container none 1
          [EncodingProfile.video none 1, EncodingProfile.video none 2])
        GType.videoProfile
      = [EncodingProfile.video none 1, EncodingProfile.video none 2]) = False := by
  refine ⟨rfl, eq_false ?_⟩
  intro h
  have h2 : ([EncodingProfile.video none 2, EncodingProfile.video none 1]
      : List EncodingProfile)
      = [EncodingProfile.video none 1, EncodingProfile.video none 2] := h
  simp at h2

/-- C2 amended: for a container profile, `get_profiles_of_type` at the video
class returns exactly the video-class direct children — every element is a
video leaf — but in reverse of their original relative order among the
children. -/
theorem claim_C2_video_children_reversed (r : Option Caps) (n : Nat)
    (children : List EncodingProfile) :
    get_profiles_of_type (.container r n children) GType.videoProfile
      = (children.filter
          (fun c => decide (gObjectType c = GType.videoProfile))).reverse
    ∧ (get_profiles_of_type (.container r n children)
        GType.videoProfile).all isVideoLeafB = true := by
  refine ⟨get_profiles_of_type_container r n children GType.videoProfile, ?_⟩
  rw [get_profiles_of_type_container]
  rw [List.all_eq_true]
  intro x hx
  rw [List.mem_reverse, List.mem_filter] at hx
  have hx2 := of_decide_eq_true hx.2
  cases x <;> first | rfl | simp [gObjectType] at hx2

/-- C9: a non-container profile passed to `get_profiles_of_type` yields the
singleton of itself exactly when it is a video profile, irrespective of the
requested type: a bare video leaf is returned even for an audio query, and a
bare audio leaf always yields the empty list. -/
theorem claim_C9_noncontainer_video_only (t : GType) (r : Option Caps)
    (n : Nat) :
    get_profiles_of_type (.video r n) t = [.video r n]
    ∧ get_profiles_of_type (.audio r n) t = [] := by
  constructor <;> simp [get_profiles_of_type, gObjectType]

/-- `gst_encoding_profile_set_presence`: sets the presence counter of the
profile object itself (children are separate objects and are untouched). -/
def setOwnPresence (n : Nat) : EncodingProfile → EncodingProfile
  | .video r _ => .video r n
  | .audio r _ => .audio r n
  | .container r _ cs => .container r n cs

/-- The presence normalization performed by `get_usable_profiles` on each
candidate before the trial build: presence 1 on the profile and, when it is a
container, presence 1 on each direct child.  The loop in the source does not
recurse, so grandchildren and deeper descendants keep their presence. -/
def normalizeProfile : EncodingProfile → EncodingProfile
  | .video r _ => .video r 1
  | .audio r _ => .audio r 1
  | .container r _ cs => .container r 1 (cs.map (setOwnPresence 1))

/-- `get_usable_profiles` from `tools/utils.c`: for each profile of the
target, normalize presence, build a fresh trial `encodebin` configured with
the profile alone, and prepend the profile to the result when the trial bin
has at least one child element.  The expansion the `encodebin` element
performs is external to the repository and is passed in as `expand`, giving
the trial bin's children for a profile. -/
def get_usable_profiles (expand : EncodingProfile → List String)
    (target : List EncodingProfile) : List EncodingProfile :=
  target.foldl
    (fun acc prof =>
      let p := normalizeProfile prof
      if expand p = [] then acc else p :: acc)
    []

theorem foldl_skipif_filter {α : Type} (P : α → Prop) [DecidablePred P] :
    ∀ (l : List α) (acc : List α),
      l.foldl (fun a x => if P x then a else x :: a) acc
        = (l.filter (fun x => !(decide (P x)))).reverse ++ acc := by
  intro l
  induction l with
  | nil => intro acc; simp
  | cons x l ih =>
      intro acc
      by_cases hx : P x
      · simp [List.foldl_cons, hx, ih, List.filter_cons]
      · simp [List.foldl_cons, hx, ih, List.filter_cons]

theorem get_usable_profiles_eq (expand : EncodingProfile → List String)
    (target : List EncodingProfile) :
    get_usable_profiles expand target
      = ((target.map normalizeProfile).filter
          (fun p => !(decide (expand p = [])))).reverse := by
  have h1 : get_usable_profiles expand target
      = (target.map normalizeProfile).foldl
          (fun acc p => if expand p = [] then acc else p :: acc) [] := by
    rw [List.foldl_map]
    rfl
  rw [h1, foldl_skipif_filter (fun p => expand p = [])]
  simp

/-- C3 counterexample: for a candidate that is a container holding a container
holding a video leaf (all presences 0), the profile handed to the trial build
and returned by `get_usable_profiles` has presence 1 on the candidate and its
direct child, but the depth-two descendant keeps presence 0 — so presence is
not set to 1 on every descendant at every nesting depth. -/
theorem claim_C3_depth_counterexample :
    get_usable_profiles (fun _ => ["stage"])
        [EncodingProfile.container none 0
          [EncodingProfile.container none 0 [EncodingProfile.video none 0]]]
      = [EncodingProfile.container none 1
          [EncodingProfile.container none 1 [EncodingProfile.video none 0]]]
    ∧ (presenceOf (EncodingProfile.video none 0) = 1) = False := by
  refine ⟨rfl, eq_false ?_⟩
  intro h
  simp [presenceOf] at h

/-- C3 amended: before the trial build, `get_usable_profiles` normalizes each
candidate with `normalizeProfile`, which sets presence to exactly 1 on the
candidate and on each direct child of a container candidate, and leaves
everything else — restrictions, the child lists of the children (and with
them all deeper descendants and their presence counts), and the profile
classes — unchanged. -/
theorem claim_C3_presence_direct_children_only
    (expand : EncodingProfile → List String)
    (target : List EncodingProfile) (p : EncodingProfile) :
    get_usable_profiles expand target
      = ((target.map normalizeProfile).filter
          (fun q => !(decide (expand q = [])))).reverse
    ∧ presenceOf (normalizeProfile p) = 1
    ∧ (childrenOf (normalizeProfile p)).map presenceOf
        = (childrenOf p).map (fun _ => 1)
    ∧ (childrenOf (normalizeProfile p)).map childrenOf
        = (childrenOf p).map childrenOf
    ∧ (childrenOf (normalizeProfile p)).map restrictionOf
        = (childrenOf p).map restrictionOf
    ∧ restrictionOf (normalizeProfile p) = restrictionOf p
    ∧ gObjectType (normalizeProfile p) = gObjectType p := by
  refine ⟨get_usable_profiles_eq expand target, ?_⟩
  cases p with
  | video r n => simp [normalizeProfile, presenceOf, childrenOf, restrictionOf,
      gObjectType]
  | audio r n => simp [normalizeProfile, presenceOf, childrenOf, restrictionOf,
      gObjectType]
  | container r n cs =>
      refine ⟨rfl, ?_, ?_, ?_, rfl, rfl⟩
      all_goals
        simp only [normalizeProfile, childrenOf, List.map_map]
        congr 1
        funext c
        cases c <;> rfl

/-- C4: a (normalized) candidate appears in the result of
`get_usable_profiles` exactly when the trial bin built from that profile
alone has a non-empty children list; and the trial build of one candidate
carries no state into the next — the result over a concatenation of
candidate lists is the concatenation (in prepend order) of the results over
the pieces. -/
theorem claim_C4_usable_iff_expanded (expand : EncodingProfile → List String)
    (t1 t2 : List EncodingProfile) (q : EncodingProfile) :
    (q ∈ get_usable_profiles expand (t1 ++ t2)
      ↔ q ∈ (t1 ++ t2).map normalizeProfile ∧ expand q ≠ [])
    ∧ get_usable_profiles expand (t1 ++ t2)
        = get_usable_profiles expand t2 ++ get_usable_profiles expand t1 := by
  constructor
  · rw [get_usable_profiles_eq]
    simp [List.mem_filter]
    rw [← or_and_right, or_comm]
  · rw [get_usable_profiles_eq, get_usable_profiles_eq, get_usable_profiles_eq]
    simp [List.filter_append]

/-- C5 counterexample: with two distinct already-normalized video candidates
`pa, pb` whose trial builds both succeed, `get_usable_profiles` returns
`[pb, pa]`, which is not a subsequence of the input `[pa, pb]` — the
prepend-accumulated result reverses the input order. -/
theorem claim_C5_subsequence_counterexample :
    get_usable_profiles (fun _ => ["stage"])
        [EncodingProfile.video none 1,
         EncodingProfile.video (some ⟨"video/x-raw", []⟩) 1]
      = [EncodingProfile.video (some ⟨"video/x-raw", []⟩) 1,
         EncodingProfile.video none 1]
    ∧ List.Sublist
        [EncodingProfile.video (some ⟨"video/x-raw", []⟩) 1,
         EncodingProfile.video none 1]
        [EncodingProfile.video none 1,
         EncodingProfile.video (some ⟨"video/x-raw", []⟩) 1] = False := by
  refine ⟨rfl, eq_false ?_⟩
  intro h
  have h2 := h.eq_of_length rfl
  simp at h2

/-- C5 amended: `get_usable_profiles` is total (build failures are swallowed:
a profile whose trial bin stays empty is simply excluded, and no error is
returned), and its result is a subsequence of the reverse of the
presence-normalized candidate sequence — equivalently, the reverse of an
order-preserving selection — rather than a subsequence of the input itself. -/
theorem claim_C5_reverse_subsequence (expand : EncodingProfile → List String)
    (target : List EncodingProfile) :
    get_usable_profiles expand target
      = ((target.map normalizeProfile).filter
          (fun p => !(decide (expand p = [])))).reverse
    ∧ List.Sublist (get_usable_profiles expand target)
        ((target.map normalizeProfile).reverse) := by
  refine ⟨get_usable_profiles_eq expand target, ?_⟩
  rw [get_usable_profiles_eq]
  exact (List.filter_sublist _).reverse

/-- Core of `get_file_extension` from `tools/utils.c`: scan the characters
for the last occurrence of a dot and return the suffix after it; `none` when
the string holds no dot (the C code scans from the end and returns `NULL`
when the index underflows). -/
def extAfterLastDot : List Char → Option (List Char)
  | [] => none
  | c :: rest =>
      match extAfterLastDot rest with
      | some s => some s
      | none => if c = '.' then some rest else none

/-- `get_file_extension` on the character list of the URI string. -/
def get_file_extension (uri : List Char) : Option (List Char) :=
  extAfterLastDot uri

theorem extAfterLastDot_eq_none (l : List Char) :
    extAfterLastDot l = none ↔ '.' ∉ l := by
  induction l with
  | nil => simp [extAfterLastDot]
  | cons c rest ih =>
      simp only [extAfterLastDot, List.mem_cons]
      cases hrest : extAfterLastDot rest with
      | some s =>
          have : '.' ∈ rest := by
            by_contra hm
            rw [← ih] at hm
            rw [hrest] at hm
            exact Option.noConfusion hm
          simp [this]
      | none =>
          have hnm : '.' ∉ rest := (ih).mp hrest
          by_cases hc : c = '.'
          · simp [hc]
          · have hc2 : ¬('.' = c) := fun h => hc h.symm
            simp [hc, hc2, hnm]

theorem extAfterLastDot_last (b : List Char) (hb : '.' ∉ b) :
    ∀ a : List Char, extAfterLastDot (a ++ '.' :: b) = some b := by
  intro a
  induction a with
  | nil =>
      simp only [List.nil_append, extAfterLastDot]
      rw [(extAfterLastDot_eq_none b).mpr hb]
      simp
  | cons c a ih =>
      have ih2 : extAfterLastDot (a.append ('.' :: b)) = some b := ih
      simp only [List.cons_append, extAfterLastDot]
      rw [ih2]

/-- C8: `get_file_extension` returns `none` exactly when the string holds no
dot, and on a string of the shape `a ++ "." ++ b` with no dot in `b` (so the
dot shown is the last one) it returns exactly the suffix `b`; in particular a
string ending in a dot yields the empty suffix. -/
theorem claim_C8_file_extension (uri : List Char) :
    (get_file_extension uri = none ↔ '.' ∉ uri)
    ∧ (∀ a b : List Char, uri = a ++ '.' :: b → '.' ∉ b →
        get_file_extension uri = some b) := by
  refine ⟨extAfterLastDot_eq_none uri, ?_⟩
  intro a b hsplit hb
  rw [hsplit]
  exact extAfterLastDot_last b hb a

/-- C8 witness: on `"a.tar.gz"` the extension is `"gz"`, on `"tar."` it is
the empty string, and `"noext"` has none. -/
theorem claim_C8_file_extension_witness :
    get_file_extension ['a', '.', 't', 'a', 'r', '.', 'g', 'z'] = some ['g', 'z']
    ∧ get_file_extension ['t', 'a', 'r', '.'] = some []
    ∧ get_file_extension ['n', 'o', 'e', 'x', 't'] = none := by
  refine ⟨?_, ?_, ?_⟩
  · exact (claim_C8_file_extension _).2 ['a', '.', 't', 'a', 'r'] ['g', 'z']
      (by decide) (by decide)
  · exact (claim_C8_file_extension _).2 ['t', 'a', 'r'] [] (by decide) (by decide)
  · exact (claim_C8_file_extension _).1.mpr (by decide)

/-- One nanosecond-resolution second, `GST_SECOND`. -/
def GST_SECOND : Nat := 1000000000

/-- The invalid clock time sentinel `GST_CLOCK_TIME_NONE`
(`(guint64) -1 = 2^64 - 1`). -/
def GST_CLOCK_TIME_NONE : Nat := 18446744073709551615

/-- ASCII digit character for a value below ten. -/
def digitChar (n : Nat) : Char := Char.ofNat (48 + n)

/-- Decimal rendering of a natural number (the `%u` conversion), with a fuel
argument bounding the digit count; twenty digits cover every 64-bit value. -/
def toDecimalAux : Nat → Nat → List Char
  | 0, _ => []
  | fuel + 1, n =>
      if n < 10 then [digitChar n]
      else toDecimalAux fuel (n / 10) ++ [digitChar (n % 10)]

/-- Decimal rendering of a natural number as printed by `%u`. -/
def toDecimal (n : Nat) : List Char := toDecimalAux 20 n

/-- Zero left-padding to a minimum width, as in `%02u` / `%09u`. -/
def leftPadChars (width : Nat) (l : List Char) : List Char :=
  List.replicate (width - l.length) '0' ++ l

/-- `%02u`. -/
def pad2 (n : Nat) : List Char := leftPadChars 2 (toDecimal n)

/-- `%09u`. -/
def pad9 (n : Nat) : List Char := leftPadChars 9 (toDecimal n)

/-- The `GST_TIME_FORMAT` / `GST_TIME_ARGS` rendering
`"%u:%02u:%02u.%09u"` of a clock time: hours (cast to `guint`), minutes,
seconds and nanoseconds; the invalid sentinel renders as all nines. -/
def gstTimeFormat (t : Nat) : List Char :=
  if t = GST_CLOCK_TIME_NONE then
    ['9', '9', ':', '9', '9', ':', '9', '9', '.',
     '9', '9', '9', '9', '9', '9', '9', '9', '9']
  else
    toDecimal (t / (GST_SECOND * 60 * 60) % 4294967296)
      ++ ':' :: pad2 (t / (GST_SECOND * 60) % 60)
      ++ ':' :: pad2 (t / GST_SECOND % 60)
      ++ '.' :: pad9 (t % GST_SECOND)

/-- `position_updated_cb` from `tools/gst-transcoder.c`: queries the
duration, and prints the position and duration — each rendered with
`GST_TIME_FORMAT` and truncated to nine characters by storing a terminator at
index 9 — only when the position is not the invalid sentinel and the duration
is strictly positive and not the invalid sentinel; otherwise nothing is
printed.  The value returned is the pair of printed time strings (the
trailing blank `status` padding is constant and omitted). -/
def position_updated_cb (pos dur : Nat) : Option (List Char × List Char) :=
  if pos ≠ GST_CLOCK_TIME_NONE ∧ 0 < dur ∧ dur ≠ GST_CLOCK_TIME_NONE then
    some ((gstTimeFormat pos).take 9, (gstTimeFormat dur).take 9)
  else
    none

theorem toDecimalAux_length_pos (fuel n : Nat) :
    1 ≤ (toDecimalAux (fuel + 1) n).length := by
  rw [toDecimalAux]
  by_cases h : n < 10
  · simp [h]
  · simp [h]

theorem gstTimeFormat_length (t : Nat) : 9 ≤ (gstTimeFormat t).length := by
  rw [gstTimeFormat]
  by_cases h : t = GST_CLOCK_TIME_NONE
  · simp [h]
  · have h1 := toDecimalAux_length_pos 19 (t / (GST_SECOND * 60 * 60) % 4294967296)
    simp only [h, if_false, List.length_append, List.length_cons]
    have hp : ∀ w m : Nat, w ≤ (leftPadChars w (toDecimal m)).length := by
      intro w m
      simp only [leftPadChars, List.length_append, List.length_replicate]
      omega
    have h2 := hp 2 (t / (GST_SECOND * 60) % 60)
    have h3 := hp 2 (t / GST_SECOND % 60)
    have h4 := hp 9 (t % GST_SECOND)
    simp only [pad2, pad9] at *
    omega

/-- C6: the progress reporter prints exactly when the position is not the
unknown sentinel and the duration is known (not the sentinel) and strictly
positive; what it prints for position and for duration is the structured
`hours:minutes:seconds.fraction` rendering truncated to a fixed width of
nine characters — never the raw tick count. -/
theorem claim_C6_progress_formatting (pos dur : Nat)
    (hpos : pos < 18446744073709551616) (hdur : dur < 18446744073709551616) :
    (position_updated_cb pos dur ≠ none
      ↔ pos ≠ GST_CLOCK_TIME_NONE ∧ 0 < dur ∧ dur ≠ GST_CLOCK_TIME_NONE)
    ∧ (∀ ps ds, position_updated_cb pos dur = some (ps, ds) →
        ps.length = 9 ∧ ds.length = 9
        ∧ ps = (gstTimeFormat pos).take 9 ∧ ds = (gstTimeFormat dur).take 9) := by
  constructor
  · by_cases h : pos ≠ GST_CLOCK_TIME_NONE ∧ 0 < dur ∧ dur ≠ GST_CLOCK_TIME_NONE
    · simp [position_updated_cb, h]
    · simp [position_updated_cb, h]
  · intro ps ds hsome
    by_cases h : pos ≠ GST_CLOCK_TIME_NONE ∧ 0 < dur ∧ dur ≠ GST_CLOCK_TIME_NONE
    · rw [position_updated_cb, if_pos h] at hsome
      have hps : ps = (gstTimeFormat pos).take 9 := by
        have := congrArg (fun x => (x.getD ([], [])).1) hsome
        simpa using this.symm
      have hds : ds = (gstTimeFormat dur).take 9 := by
        have := congrArg (fun x => (x.getD ([], [])).2) hsome
        simpa using this.symm
      refine ⟨?_, ?_, hps, hds⟩
      · rw [hps, List.length_take]
        have := gstTimeFormat_length pos
        omega
      · rw [hds, List.length_take]
        have := gstTimeFormat_length dur
        omega
    · rw [position_updated_cb, if_neg h] at hsome
      exact Option.noConfusion hsome

/-- C6 witness: at position 0 with duration 1 ns the reporter prints, and the
printed position string is the nine characters `0:00:00.0`. -/
theorem claim_C6_progress_formatting_witness :
    position_updated_cb 0 1 ≠ none
    ∧ position_updated_cb 0 1
        = some (['0', ':', '0', '0', ':', '0', '0', '.', '0'],
                ['0', ':', '0', '0', ':', '0', '0', '.', '0'])
    ∧ (['0', ':', '0', '0', ':', '0', '0', '.', '0'] : List Char).length = 9 := by
  have h := claim_C6_progress_formatting 0 1 (by decide) (by decide)
  refine ⟨h.1.mpr ⟨by decide, by decide, by decide⟩, rfl, ?_⟩
  exact (h.2 ['0', ':', '0', '0', ':', '0', '0', '.', '0']
      ['0', ':', '0', '0', ':', '0', '0', '.', '0'] rfl).1

/-- A typed value held in a `GstStructure` field, as far as the tool reads
them: booleans, caps, or anything else. -/
inductive SValue where
  | boolVal (b : Bool)
  | capsVal (c : Caps)
  | otherVal (s : String)
deriving DecidableEq, Repr

/-- A `GstStructure`: named typed fields. -/
structure GstStructure where
  fields : List (String × SValue)
deriving DecidableEq, Repr

/-- First-match association-list lookup (field names in a `GstStructure` and
in caps are unique, so first match is the match). -/
def lookupKV {α : Type} : List (String × α) → String → Option α
  | [], _ => none
  | (k2, v) :: rest, k => if k2 = k then some v else lookupKV rest k

/-- `gst_structure_get (…, G_TYPE_BOOLEAN, …)` on one field: succeeds only
when the field exists and holds a boolean. -/
def structureGetBoolField (d : GstStructure) (k : String) : Option Bool :=
  match lookupKV d.fields k with
  | some (.boolVal b) => some b
  | _ => none

/-- `gst_structure_get (…, GST_TYPE_CAPS, …)` on one field: succeeds only
when the field exists and holds caps. -/
def structureGetCapsField (d : GstStructure) (k : String) : Option Caps :=
  match lookupKV d.fields k with
  | some (.capsVal c) => some c
  | _ => none

/-- `_warning_cb` from `tools/gst-transcoder.c`: when the structured details
are present and `gst_structure_get` succeeds for both the boolean
`can-t-encode-stream` field and the `stream-caps` caps field, it warns with
the specific message naming the stream's codec description; in every other
case it warns with the generic message carrying the error text.  The codec
description function (`gst_pb_utils_get_codec_description`) is an external
collaborator passed as a parameter.  The handler only prints; it returns the
emitted message and has no failure outcome. -/
def warning_cb (codecDesc : Caps → String) (details : Option GstStructure)
    (errorMessage : String) : String :=
  match details with
  | some d =>
      match structureGetBoolField d "can-t-encode-stream",
            structureGetCapsField d "stream-caps" with
      | some _, some caps =>
          "WARNING: Input stream encoded with " ++ codecDesc caps
            ++ " can't be encoded"
      | _, _ => "Got warning: " ++ errorMessage
  | none => "Got warning: " ++ errorMessage

/-- C7: the warning handler emits the specific "can't be encoded" message
with the offending stream's format description exactly when the structured
detail is present and contains both the boolean stream-not-encodable flag and
the stream caps; in every other case it emits the generic warning message;
and its outcome is always one of those two messages — a warning never becomes
a failure. -/
theorem claim_C7_warning_dispatch (codecDesc : Caps → String)
    (details : Option GstStructure) (msg : String) :
    (∀ d b caps, details = some d →
        structureGetBoolField d "can-t-encode-stream" = some b →
        structureGetCapsField d "stream-caps" = some caps →
        warning_cb codecDesc details msg
          = "WARNING: Input stream encoded with " ++ codecDesc caps
              ++ " can't be encoded")
    ∧ ((details = none
         ∨ ∃ d, details = some d
             ∧ (structureGetBoolField d "can-t-encode-stream" = none
                ∨ structureGetCapsField d "stream-caps" = none)) →
        warning_cb codecDesc details msg = "Got warning: " ++ msg)
    ∧ (warning_cb codecDesc details msg = "Got warning: " ++ msg
       ∨ ∃ caps, warning_cb codecDesc details msg
          = "WARNING: Input stream encoded with " ++ codecDesc caps
              ++ " can't be encoded") := by
  refine ⟨?_, ?_, ?_⟩
  · intro d b caps hd hb hc
    subst hd
    rw [warning_cb, hb, hc]
  · intro hcase
    cases hcase with
    | inl hnone => subst hnone; rfl
    | inr hex =>
        obtain ⟨d, hd, hor⟩ := hex
        subst hd
        rw [warning_cb]
        cases hor with
        | inl hb => rw [hb]
        | inr hc =>
            rw [hc]
            cases structureGetBoolField d "can-t-encode-stream" <;> rfl
  · cases details with
    | none => exact Or.inl rfl
    | some d =>
        rw [warning_cb]
        cases hb : structureGetBoolField d "can-t-encode-stream" with
        | none =>
            cases structureGetCapsField d "stream-caps" <;> exact Or.inl rfl
        | some b =>
            cases hc : structureGetCapsField d "stream-caps" with
            | none => exact Or.inl rfl
            | some caps => exact Or.inr ⟨caps, rfl⟩

/-- C7 witness: a detail structure holding both fields (even with the flag's
value `false`, which the handler never reads) produces the specific message;
absent details produce the generic one. -/
theorem claim_C7_warning_dispatch_witness :
    warning_cb (fun _ => "theCodec")
        (some ⟨[("can-t-encode-stream", SValue.boolVal false),
                ("stream-caps", SValue.capsVal ⟨"video/x-h264", []⟩)]⟩)
        "msg"
      = "WARNING: Input stream encoded with "
          ++ (fun (_ : Caps) => "theCodec") (⟨"video/x-h264", []⟩ : Caps)
          ++ " can't be encoded"
    ∧ warning_cb (fun _ => "theCodec") none "msg" = "Got warning: " ++ "msg" := by
  constructor
  · exact (claim_C7_warning_dispatch (fun _ => "theCodec")
      (some ⟨[("can-t-encode-stream", SValue.boolVal false),
              ("stream-caps", SValue.capsVal ⟨"video/x-h264", []⟩)]⟩) "msg").1
      ⟨[("can-t-encode-stream", SValue.boolVal false),
        ("stream-caps", SValue.capsVal ⟨"video/x-h264", []⟩)]⟩
      false ⟨"video/x-h264", []⟩ rfl (by decide) (by decide)
  · exact (claim_C7_warning_dispatch (fun _ => "theCodec") none "msg").2.1
      (Or.inl rfl)

/-- Replace (or append) one integer field of a caps field list, as
`gst_caps_set_simple` does for a single field. -/
def setField : List (String × Int) → String → Int → List (String × Int)
  | [], k, v => [(k, v)]
  | (k2, v2) :: rest, k, v =>
      if k2 = k then (k, v) :: rest else (k2, v2) :: setField rest k v

/-- `gst_caps_set_simple` for one integer field. -/
def capsSet (c : Caps) (k : String) (v : Int) : Caps :=
  ⟨c.name, setField c.fields k v⟩

/-- The caps a mutator starts from: a copy of the existing restriction, or a
fresh empty caps of the given media type when the profile has none
(`gst_caps_new_empty_simple`). -/
def restCopyOr (dflt : String) : Option Caps → Caps
  | none => ⟨dflt, []⟩
  | some c => c

/-- `gst_encoding_profile_set_restriction`. -/
def setRestriction : EncodingProfile → Option Caps → EncodingProfile
  | .video _ n, r => .video r n
  | .audio _ n, r => .audio r n
  | .container _ n cs, r => .container r n cs

/-- In-place mutation through the profile list returned by
`get_profiles_of_type`: on a container the update hits exactly the direct
children of the requested class; on a non-container it hits the profile
itself exactly when it is a video profile (the quirk of C9). -/
def applyToMatched (t : GType) (upd : EncodingProfile → EncodingProfile) :
    EncodingProfile → EncodingProfile
  | .container r n cs =>
      .container r n (cs.map (fun c => if gObjectType c = t then upd c else c))
  | p => if gObjectType p = .videoProfile then upd p else p

/-- The per-profile mutation `set_video_size` performs: width and height set
on a copy of the restriction (or on fresh `video/x-raw` caps). -/
def videoSizeUpdate (w h : Int) (q : EncodingProfile) : EncodingProfile :=
  setRestriction q
    (some (capsSet (capsSet (restCopyOr "video/x-raw" (restrictionOf q))
      "width" w) "height" h))

/-- The per-profile mutation `set_audio_rate` performs: rate set on a copy of
the restriction (or on fresh `audio/x-raw` caps). -/
def audioRateUpdate (rate : Int) (q : EncodingProfile) : EncodingProfile :=
  setRestriction q
    (some (capsSet (restCopyOr "audio/x-raw" (restrictionOf q)) "rate" rate))

/-- `g_strsplit` on a one-character separator (the tool splits on "x"),
keeping empty tokens. -/
def splitOnChar (sep : Char) : List Char → List (List Char)
  | [] => [[]]
  | c :: rest =>
      match splitOnChar sep rest with
      | [] => [[]]
      | t :: ts => if c = sep then [] :: t :: ts else (c :: t) :: ts

/-- Value of one character as a digit in the given base, if it is one. -/
def digitVal (base : Nat) (c : Char) : Option Nat :=
  let v :=
    if '0' ≤ c ∧ c ≤ '9' then some (c.toNat - 48)
    else if 'a' ≤ c ∧ c ≤ 'f' then some (c.toNat - 87)
    else if 'A' ≤ c ∧ c ≤ 'F' then some (c.toNat - 55)
    else none
  match v with
  | some d => if d < base then some d else none
  | none => none

/-- Greedy digit accumulation of `strtoull`: consume valid digits, stop at
the first invalid character; no digits yields 0. -/
def parseUIntAux : List Char → Nat → Nat → Nat
  | [], _, acc => acc
  | c :: rest, base, acc =>
      match digitVal base c with
      | some d => parseUIntAux rest base (acc * base + d)
      | none => acc

/-- `g_ascii_strtoull (s, NULL, 10)`. -/
def strtoullBase10 (l : List Char) : Nat := parseUIntAux l 10 0

/-- `g_ascii_strtoull (s, NULL, 0)`: base auto-detection — `0x`/`0X` prefix
means hexadecimal, a leading `0` octal, anything else decimal. -/
def strtoullBase0 (l : List Char) : Nat :=
  match l with
  | '0' :: 'x' :: rest => parseUIntAux rest 16 0
  | '0' :: 'X' :: rest => parseUIntAux rest 16 0
  | '0' :: rest => parseUIntAux rest 8 0
  | l2 => parseUIntAux l2 10 0

/-- Conversion of the `guint64` parse result to the C `gint` the tool stores
in the caps (wrap to 64 bits, then truncate to a signed 32-bit value). -/
def toGint (n : Nat) : Int :=
  let m := n % 18446744073709551616
  let r := m % 4294967296
  if r < 2147483648 then (r : Int) else (r : Int) - 4294967296

/-- `set_video_size` from `tools/gst-transcoder.c`: a null value is accepted
unchanged; otherwise the value is lowercased and split on `x`, anything but
exactly two tokens is rejected with FALSE (and an error print) leaving the
profile untouched; on success width (parsed with base auto-detection) and
height (parsed base 10) are set on the restriction of every video profile
returned by `get_profiles_of_type`. -/
def set_video_size (p : EncodingProfile) (value : Option (List Char)) :
    Bool × EncodingProfile :=
  match value with
  | none => (true, p)
  | some v =>
      let lowered := v.map Char.toLower
      let parts := splitOnChar 'x' lowered
      if parts.length = 2 then
        (true, applyToMatched GType.videoProfile
          (videoSizeUpdate (toGint (strtoullBase0 (parts.getD 0 [])))
            (toGint (strtoullBase10 (parts.getD 1 [])))) p)
      else (false, p)

/-- `set_audio_rate` from `tools/gst-transcoder.c`: a negative rate is
accepted unchanged; otherwise the rate is set on the restriction of every
audio profile returned by `get_profiles_of_type`. -/
def set_audio_rate (p : EncodingProfile) (rate : Int) :
    Bool × EncodingProfile :=
  if rate < 0 then (true, p)
  else (true, applyToMatched GType.audioProfile (audioRateUpdate rate) p)

/-- Frame relation on restrictions: the new restriction exists, keeps the old
media-type name (or takes the stated default when there was none), agrees
with the old restriction on every field outside `keys`, and has every field
of `keys` set. -/
def capsOutside (keys : List String) (dflt : String)
    (oldR newR : Option Caps) : Prop :=
  ∃ c, newR = some c
    ∧ c.name = (match oldR with | some o => o.name | none => dflt)
    ∧ (∀ k, k ∉ keys → lookupKV c.fields k
        = (match oldR with | some o => lookupKV o.fields k | none => none))
    ∧ (∀ k, k ∈ keys → (lookupKV c.fields k).isSome = true)

/-- Frame relation on one mutated profile: class, presence and children are
untouched; only the restriction changes, and only at `keys`. -/
def leafFrame (keys : List String) (dflt : String)
    (old q2 : EncodingProfile) : Prop :=
  gObjectType q2 = gObjectType old
  ∧ presenceOf q2 = presenceOf old
  ∧ childrenOf q2 = childrenOf old
  ∧ capsOutside keys dflt (restrictionOf old) (restrictionOf q2)

/-- Frame relation of the whole mutation: a container keeps its own
restriction, presence and child count, non-matched children are unchanged,
matched children satisfy `leafFrame`; a non-container profile is mutated
exactly when it is a video profile (C9 quirk) and unchanged otherwise. -/
def profileFrame (keys : List String) (dflt : String) (t : GType)
    (old q2 : EncodingProfile) : Prop :=
  match old with
  | .container r n cs =>
      ∃ cs2, q2 = .container r n cs2
        ∧ List.Forall₂
            (fun o w => if gObjectType o = t then leafFrame keys dflt o w
              else w = o) cs cs2
  | .video r n => leafFrame keys dflt (.video r n) q2
  | .audio r n => q2 = .audio r n

theorem lookupKV_setField_self (f : List (String × Int)) (k : String)
    (v : Int) : lookupKV (setField f k v) k = some v := by
  induction f with
  | nil => simp [setField, lookupKV]
  | cons kv rest ih =>
      obtain ⟨k2, v2⟩ := kv
      by_cases h : k2 = k
      · simp [setField, h, lookupKV]
      · simp [setField, h, lookupKV, ih]

theorem lookupKV_setField_other (f : List (String × Int)) (k k2 : String)
    (v : Int) (h : k2 ≠ k) :
    lookupKV (setField f k v) k2 = lookupKV f k2 := by
  induction f with
  | nil =>
      have h2 : ¬(k = k2) := fun he => h he.symm
      simp [setField, lookupKV, h2]
  | cons kv rest ih =>
      obtain ⟨k3, v3⟩ := kv
      by_cases h3 : k3 = k
      · have h4 : ¬(k = k2) := fun he => h he.symm
        subst h3
        simp [setField, lookupKV, h4]
      · by_cases h5 : k3 = k2
        · simp [setField, h3, lookupKV, h5, h]
        · simp [setField, h3, lookupKV, h5, ih]

theorem videoSizeUpdate_leafFrame (w h : Int) (q : EncodingProfile) :
    leafFrame ["width", "height"] "video/x-raw" q (videoSizeUpdate w h q) := by
  have hgo : gObjectType (videoSizeUpdate w h q) = gObjectType q := by
    cases q <;> rfl
  have hpr : presenceOf (videoSizeUpdate w h q) = presenceOf q := by
    cases q <;> rfl
  have hch : childrenOf (videoSizeUpdate w h q) = childrenOf q := by
    cases q <;> rfl
  have hrest : restrictionOf (videoSizeUpdate w h q)
      = some (capsSet (capsSet (restCopyOr "video/x-raw" (restrictionOf q))
          "width" w) "height" h) := by
    cases q <;> rfl
  refine ⟨hgo, hpr, hch, ?_⟩
  unfold capsOutside
  rw [hrest]
  refine ⟨_, rfl, ?_, ?_, ?_⟩
  · cases hro : restrictionOf q <;> rfl
  · intro k hk
    simp only [List.mem_cons, List.not_mem_nil, or_false, not_or] at hk
    obtain ⟨hw, hh⟩ := hk
    show lookupKV (setField (setField
        (restCopyOr "video/x-raw" (restrictionOf q)).fields "width" w)
        "height" h) k = _
    rw [lookupKV_setField_other _ _ _ _ hh, lookupKV_setField_other _ _ _ _ hw]
    cases hro : restrictionOf q <;> rfl
  · intro k hk
    simp only [List.mem_cons, List.not_mem_nil, or_false] at hk
    show (lookupKV (setField (setField
        (restCopyOr "video/x-raw" (restrictionOf q)).fields "width" w)
        "height" h) k).isSome = true
    cases hk with
    | inl hkw =>
        subst hkw
        rw [lookupKV_setField_other _ _ _ _ (by decide : "width" ≠ "height")]
        rw [lookupKV_setField_self]
        rfl
    | inr hkh =>
        subst hkh
        rw [lookupKV_setField_self]
        rfl

theorem audioRateUpdate_leafFrame (rate : Int) (q : EncodingProfile) :
    leafFrame ["rate"] "audio/x-raw" q (audioRateUpdate rate q) := by
  have hgo : gObjectType (audioRateUpdate rate q) = gObjectType q := by
    cases q <;> rfl
  have hpr : presenceOf (audioRateUpdate rate q) = presenceOf q := by
    cases q <;> rfl
  have hch : childrenOf (audioRateUpdate rate q) = childrenOf q := by
    cases q <;> rfl
  have hrest : restrictionOf (audioRateUpdate rate q)
      = some (capsSet (restCopyOr "audio/x-raw" (restrictionOf q))
          "rate" rate) := by
    cases q <;> rfl
  refine ⟨hgo, hpr, hch, ?_⟩
  unfold capsOutside
  rw [hrest]
  refine ⟨_, rfl, ?_, ?_, ?_⟩
  · cases hro : restrictionOf q <;> rfl
  · intro k hk
    simp only [List.mem_cons, List.not_mem_nil, or_false, not_or] at hk
    show lookupKV (setField
        (restCopyOr "audio/x-raw" (restrictionOf q)).fields "rate" rate) k = _
    rw [lookupKV_setField_other _ _ _ _ hk]
    cases hro : restrictionOf q <;> rfl
  · intro k hk
    simp only [List.mem_cons, List.not_mem_nil, or_false] at hk
    subst hk
    show (lookupKV (setField
        (restCopyOr "audio/x-raw" (restrictionOf q)).fields "rate" rate)
        "rate").isSome = true
    rw [lookupKV_setField_self]
    rfl

theorem forall2_of_map {α : Type} (R : α → α → Prop) (g : α → α)
    (hg : ∀ a, R a (g a)) : ∀ l : List α, List.Forall₂ R l (l.map g) := by
  intro l
  induction l with
  | nil => exact List.Forall₂.nil
  | cons a l ih => exact List.Forall₂.cons (hg a) ih

theorem applyToMatched_profileFrame (keys : List String) (dflt : String)
    (t : GType) (upd : EncodingProfile → EncodingProfile)
    (hupd : ∀ q, leafFrame keys dflt q (upd q)) (p : EncodingProfile) :
    profileFrame keys dflt t p (applyToMatched t upd p) := by
  cases p with
  | container r n cs =>
      refine ⟨cs.map (fun c => if gObjectType c = t then upd c else c),
        rfl, ?_⟩
      apply forall2_of_map
      intro a
      by_cases ha : gObjectType a = t
      · simp only [ha, if_true]
        exact hupd a
      · simp only [ha, if_false]
  | video r n =>
      show leafFrame keys dflt (.video r n)
        (if gObjectType (EncodingProfile.video r n) = .videoProfile
          then upd (.video r n) else .video r n)
      simp only [gObjectType, if_true]
      exact hupd _
  | audio r n =>
      show (if gObjectType (EncodingProfile.audio r n) = .videoProfile
          then upd (.audio r n) else .audio r n) = .audio r n
      simp [gObjectType]

/-- C10: `set_video_size` with a null value and `set_audio_rate` with a
negative rate both return TRUE and leave the whole profile tree unchanged;
when they do apply (TRUE with a well-formed size, respectively a
non-negative rate), the result differs from the input only at the
restriction caps of the profiles matched by `get_profiles_of_type`: each
matched profile keeps its class, presence and children, its new restriction
keeps the old media type and every field other than width/height
(respectively rate), and has width/height (respectively rate) set; all
non-matched profiles are returned unchanged. -/
theorem claim_C10_restriction_frame :
    (∀ p, set_video_size p none = (true, p))
    ∧ (∀ p (rate : Int), rate < 0 → set_audio_rate p rate = (true, p))
    ∧ (∀ p v res, set_video_size p (some v) = (true, res) →
        profileFrame ["width", "height"] "video/x-raw" GType.videoProfile
          p res)
    ∧ (∀ p (rate : Int) res, 0 ≤ rate → set_audio_rate p rate = (true, res) →
        profileFrame ["rate"] "audio/x-raw" GType.audioProfile p res) := by
  refine ⟨fun p => rfl, ?_, ?_, ?_⟩
  · intro p rate h
    rw [set_audio_rate, if_pos h]
  · intro p v res h
    rw [set_video_size] at h
    by_cases hlen : (splitOnChar 'x' (v.map Char.toLower)).length = 2
    · rw [if_pos hlen] at h
      have h2 := (Prod.mk.injEq _ _ _ _).mp h
      rw [← h2.2]
      exact applyToMatched_profileFrame _ _ _ _
        (videoSizeUpdate_leafFrame _ _) p
    · rw [if_neg hlen] at h
      have h2 := (Prod.mk.injEq _ _ _ _).mp h
      exact absurd h2.1 (by decide)
  · intro p rate res h0 h
    rw [set_audio_rate, if_neg (not_lt.mpr h0)] at h
    have h2 := (Prod.mk.injEq _ _ _ _).mp h
    rw [← h2.2]
    exact applyToMatched_profileFrame _ _ _ _
      (audioRateUpdate_leafFrame _) p

/-- Sample tree for the C10 witness: a container with a bare video leaf and
an audio leaf whose restriction already carries a channels field. -/
def sampleTree : EncodingProfile :=
  .container none 1
    [.video none 1,
     .audio (some ⟨"audio/x-raw", [("channels", 2)]⟩) 1]

/-- `sampleTree` after `set_video_size … "320x240"`. -/
def sampleSized : EncodingProfile :=
  .container none 1
    [.video (some ⟨"video/x-raw", [("width", 320), ("height", 240)]⟩) 1,
     .audio (some ⟨"audio/x-raw", [("channels", 2)]⟩) 1]

/-- `sampleTree` after `set_audio_rate … 44100`. -/
def sampleRated : EncodingProfile :=
  .container none 1
    [.video none 1,
     .audio (some ⟨"audio/x-raw", [("channels", 2), ("rate", 44100)]⟩) 1]

/-- C10 witness: on `sampleTree`, a negative rate is a no-op returning TRUE,
`set_video_size` with "320x240" mutates exactly the video leaf, and
`set_audio_rate 44100` mutates exactly the audio leaf. -/
theorem claim_C10_restriction_frame_witness :
    set_audio_rate sampleTree (-1) = (true, sampleTree)
    ∧ profileFrame ["width", "height"] "video/x-raw" GType.videoProfile
        sampleTree sampleSized
    ∧ profileFrame ["rate"] "audio/x-raw" GType.audioProfile
        sampleTree sampleRated := by
  refine ⟨?_, ?_, ?_⟩
  · exact claim_C10_restriction_frame.2.1 sampleTree (-1) (by decide)
  · exact claim_C10_restriction_frame.2.2.1 sampleTree
      ['3', '2', '0', 'x', '2', '4', '0'] sampleSized rfl
  · exact claim_C10_restriction_frame.2.2.2 sampleTree 44100 sampleRated
      (by decide) rfl

end GstTranscoder
